import Mathlib

/-!
Verification of the flag-decoding subsystem declared in
`hphp/runtime/vm/as-base.h`.

The header declares the `AttrContext` enumeration and four conversion
routines (`attrs_to_vec`, `attrs_to_string`, `type_flags_to_string`,
`fcall_flags_to_string`).  The enumeration is embedded directly from the
header; the bodies of the four routines live in a translation unit that is
not part of the sources here, so they are modelled from the specification:
each routine walks an immutable global table of rows (bit value, legal
context combination, name), keeps the names of the rows whose bit is set in
the input mask and which are legal for the requested context, in table
declaration order, and the string forms join those names with single
spaces.
-/

namespace AsBase

/-- The contexts the (dis)assembler cares about, embedded from the
`AttrContext` enum class of `as-base.h` with its exact enumerator values. -/
inductive AttrContext where
  | Class
  | Func
  | Prop
  | TraitImport
  | Alias
  | Parameter
  | Constant
deriving DecidableEq, Fintype

/-- The numeric value of each `AttrContext` enumerator, from `as-base.h`
(`Class = 0x1`, `Func = 0x2`, `Prop = 0x4`, `TraitImport = 0x8`,
`Alias = 0x10`, `Parameter = 0x20`, `Constant = 0x40`). -/
def AttrContext.val : AttrContext → Nat
  | AttrContext.Class => 0x1
  | AttrContext.Func => 0x2
  | AttrContext.Prop => 0x4
  | AttrContext.TraitImport => 0x8
  | AttrContext.Alias => 0x10
  | AttrContext.Parameter => 0x20
  | AttrContext.Constant => 0x40

/-- Modelled from the spec: one row of the global attribute table held by
the decoder (the table itself lives in the missing translation unit).  A
row associates a bit value with its name and with the bitwise combination
of the contexts in which the bit is meaningful. -/
structure AttrRow where
  bit : Nat
  ctx : Nat
  name : String
deriving DecidableEq

/-- Modelled from the spec: one row of a context-free flag table (the
type-constraint table and the fcall-args table each map a bit value to a
name, with no context component). -/
structure FlagRow where
  bit : Nat
  name : String
deriving DecidableEq

/-- Modelled from the spec: `attrs_to_vec(AttrContext, Attr)` (body missing
from the sources).  The table is passed explicitly; the context argument is
a bit combination of `AttrContext.val` values, since callers may combine
contexts.  For each row of the table, in declaration order, the row's name
is kept exactly when the row's bit is set in the mask and the row is legal
for the given context. -/
def attrs_to_vec (t : List AttrRow) (c : Nat) (m : Nat) : List String :=
  (t.filter fun e => (e.ctx &&& c != 0) && (e.bit &&& m != 0)).map (fun e => e.name)

/-- Modelled from the spec: joining a list of names with a single space
between consecutive elements, nothing before the first and nothing after
the last. -/
def join_space : List String → String
  | [] => ""
  | x :: xs => xs.foldl (fun acc s => acc ++ " " ++ s) x

/-- Modelled from the spec: `attrs_to_string(AttrContext, Attr)` (body
missing from the sources), the space-joined form of `attrs_to_vec`. -/
def attrs_to_string (t : List AttrRow) (c : Nat) (m : Nat) : String :=
  join_space (attrs_to_vec t c m)

/-- Modelled from the spec: the context-free projection shared by
`type_flags_to_string` and `fcall_flags_to_string`: every row of the table
is considered, and a row's name is kept exactly when its bit is set. -/
def flags_to_vec (t : List FlagRow) (m : Nat) : List String :=
  (t.filter fun e => e.bit &&& m != 0).map (fun e => e.name)

/-- Modelled from the spec: `type_flags_to_string(TypeConstraintFlags)`
(body missing from the sources), applied to the type-constraint table. -/
def type_flags_to_string (t : List FlagRow) (m : Nat) : String :=
  join_space (flags_to_vec t m)

/-- Modelled from the spec: `fcall_flags_to_string(FCallArgsFlags)` (body
missing from the sources), applied to the fcall-args table. -/
def fcall_flags_to_string (t : List FlagRow) (m : Nat) : String :=
  join_space (flags_to_vec t m)

/-- Modelled from the spec: the process-wide read-only state the decoder
consults: the attribute table and the two independent flag tables. -/
structure DecoderTables where
  attrTable : List AttrRow
  typeTable : List FlagRow
  fcallTable : List FlagRow
deriving DecidableEq

/-- Modelled from the spec: a call to `attrs_to_vec` viewed as a transformer
of the global tables, returning its result together with the state of the
tables after the call. -/
def attrs_to_vec_call (g : DecoderTables) (c : Nat) (m : Nat) :
    List String × DecoderTables :=
  (attrs_to_vec g.attrTable c m, g)

/-- Modelled from the spec: a call to `attrs_to_string` viewed as a
transformer of the global tables. -/
def attrs_to_string_call (g : DecoderTables) (c : Nat) (m : Nat) :
    String × DecoderTables :=
  (attrs_to_string g.attrTable c m, g)

/-- Modelled from the spec: a call to `type_flags_to_string` viewed as a
transformer of the global tables; it consults the type-constraint table. -/
def type_flags_to_string_call (g : DecoderTables) (m : Nat) :
    String × DecoderTables :=
  (type_flags_to_string g.typeTable m, g)

/-- Modelled from the spec: a call to `fcall_flags_to_string` viewed as a
transformer of the global tables; it consults the fcall-args table. -/
def fcall_flags_to_string_call (g : DecoderTables) (m : Nat) :
    String × DecoderTables :=
  (fcall_flags_to_string g.fcallTable m, g)

/-- A small concrete attribute table used to instantiate the universally
quantified theorems: one bit legal for classes and functions, one legal
only for properties, one legal only for functions. -/
def sampleAttrTable : List AttrRow :=
  [⟨0x1, 0x3, "final"⟩, ⟨0x2, 0x4, "readonly"⟩, ⟨0x4, 0x2, "abstract"⟩]

/-- A small concrete type-constraint flag table. -/
def sampleTypeTable : List FlagRow :=
  [⟨0x1, "nullable"⟩, ⟨0x2, "soft"⟩]

/-- A small concrete fcall-args flag table. -/
def sampleFcallTable : List FlagRow :=
  [⟨0x1, "Unpack"⟩, ⟨0x2, "Generics"⟩]

/-- If a bitwise or of naturals is zero, so is its left operand. -/
theorem or_eq_zero_left {x y : Nat} (h : x ||| y = 0) : x = 0 := by
  refine Nat.eq_of_testBit_eq fun i => ?_
  have h2 : (x ||| y).testBit i = Nat.testBit 0 i := by rw [h]
  rw [Nat.testBit_or] at h2
  simp at h2
  simp [h2.1]

/-- Masking with a bitwise or distributes, so bits disjoint from `u` see
`m ||| u` and `m` identically. -/
theorem and_or_cancel {a u : Nat} (m : Nat) (h : a &&& u = 0) :
    a &&& (m ||| u) = a &&& m := by
  rw [Nat.and_or_distrib_left, h, Nat.or_zero]

/-- Membership characterisation of `attrs_to_vec`: the produced names are
exactly the names of table rows whose bit is set in the mask and which are
legal for the context. -/
theorem mem_attrs_to_vec (t : List AttrRow) (c m : Nat) (a : String) :
    a ∈ attrs_to_vec t c m ↔
      ∃ e, e ∈ t ∧ e.ctx &&& c ≠ 0 ∧ e.bit &&& m ≠ 0 ∧ e.name = a := by
  simp only [attrs_to_vec, List.mem_map, List.mem_filter, Bool.and_eq_true,
    bne_iff_ne, ne_eq]
  constructor
  · rintro ⟨e, ⟨he, hc, hb⟩, hn⟩
    exact ⟨e, he, hc, hb, hn⟩
  · rintro ⟨e, he, hc, hb, hn⟩
    exact ⟨e, ⟨he, hc, hb⟩, hn⟩

/-- The function `join_space` agrees with joining by a single-space
separator. -/
theorem join_space_eq_intercalate (l : List String) :
    join_space l = String.intercalate " " l := by
  cases l with
  | nil => rfl
  | cons x xs =>
    show xs.foldl (fun acc s => acc ++ " " ++ s) x = String.intercalate " " (x :: xs)
    rw [String.intercalate]
    induction xs generalizing x with
    | nil => rfl
    | cons y ys ih =>
      show List.foldl (fun acc s => acc ++ " " ++ s) (x ++ " " ++ y) ys = _
      rw [ih (x ++ " " ++ y)]
      rfl

/-- When no row of the table is both legal for the context and set in the
mask, the decoded vector is empty. -/
theorem attrs_to_vec_eq_nil (t : List AttrRow) (c m : Nat)
    (h : ∀ e ∈ t, e.ctx &&& c ≠ 0 → e.bit &&& m = 0) :
    attrs_to_vec t c m = [] := by
  rw [List.eq_nil_iff_forall_not_mem]
  intro a ha
  rcases (mem_attrs_to_vec t c m a).mp ha with ⟨e, he, hc, hb, _⟩
  exact hb (h e he hc)

/-- C1: every name produced by `attrs_to_vec` is the name of a table row
whose bit is both set in the mask and legal for the context, and conversely
every set, legal bit contributes its name to the result. -/
theorem C1_attrs_to_vec_names (t : List AttrRow) (c m : Nat) (a : String) :
    a ∈ attrs_to_vec t c m ↔
      ∃ e, e ∈ t ∧ e.ctx &&& c ≠ 0 ∧ e.bit &&& m ≠ 0 ∧ e.name = a :=
  mem_attrs_to_vec t c m a

/-- C2: `attrs_to_string` is the single-space join of `attrs_to_vec`, with
no separator at all for an empty or singleton vector. -/
theorem C2_attrs_to_string_join (t : List AttrRow) (c m : Nat) :
    attrs_to_string t c m = String.intercalate " " (attrs_to_vec t c m)
  ∧ (attrs_to_vec t c m = [] → attrs_to_string t c m = "")
  ∧ (∀ a, attrs_to_vec t c m = [a] → attrs_to_string t c m = a) := by
  refine ⟨join_space_eq_intercalate _, fun h => ?_, fun a h => ?_⟩
  · simp [attrs_to_string, h, join_space]
  · simp [attrs_to_string, h, join_space]

/-- Witness for C2 at a concrete table, context and mask. -/
theorem C2_attrs_to_string_join_witness :
    attrs_to_string sampleAttrTable 0x2 0x1 =
      String.intercalate " " (attrs_to_vec sampleAttrTable 0x2 0x1)
  ∧ attrs_to_string sampleAttrTable 0x2 0x1 = "final" :=
  ⟨(C2_attrs_to_string_join sampleAttrTable 0x2 0x1).1,
   (C2_attrs_to_string_join sampleAttrTable 0x2 0x1).2.2 "final" (by decide)⟩

/-- C3: the four operations are total functions of their input masks, and a
mask extended with bits unknown to the relevant table decodes exactly as the
mask without them: the unknown bits are silently omitted and nothing else
changes. -/
theorem C3_total_unknown_bits (t : List AttrRow) (tt ft : List FlagRow)
    (c m u : Nat)
    (ha : ∀ e ∈ t, e.bit &&& u = 0)
    (htt : ∀ e ∈ tt, e.bit &&& u = 0)
    (hft : ∀ e ∈ ft, e.bit &&& u = 0) :
    attrs_to_vec t c (m ||| u) = attrs_to_vec t c m
  ∧ attrs_to_string t c (m ||| u) = attrs_to_string t c m
  ∧ type_flags_to_string tt (m ||| u) = type_flags_to_string tt m
  ∧ fcall_flags_to_string ft (m ||| u) = fcall_flags_to_string ft m
  ∧ (attrs_to_vec t c m).length ≤ t.length := by
  have hv : attrs_to_vec t c (m ||| u) = attrs_to_vec t c m := by
    unfold attrs_to_vec
    congr 1
    refine List.filter_congr fun e he => ?_
    rw [and_or_cancel m (ha e he)]
  have hty : flags_to_vec tt (m ||| u) = flags_to_vec tt m := by
    unfold flags_to_vec
    congr 1
    refine List.filter_congr fun e he => ?_
    rw [and_or_cancel m (htt e he)]
  have hfc : flags_to_vec ft (m ||| u) = flags_to_vec ft m := by
    unfold flags_to_vec
    congr 1
    refine List.filter_congr fun e he => ?_
    rw [and_or_cancel m (hft e he)]
  refine ⟨hv, by simp only [attrs_to_string, hv],
    by simp only [type_flags_to_string, hty],
    by simp only [fcall_flags_to_string, hfc], ?_⟩
  unfold attrs_to_vec
  rw [List.length_map]
  exact List.length_filter_le _ t

/-- Witness for C3 at a concrete table, context, mask and unknown bit. -/
theorem C3_total_unknown_bits_witness :
    attrs_to_vec sampleAttrTable 0x2 (0x1 ||| 0x100) =
      attrs_to_vec sampleAttrTable 0x2 0x1 :=
  (C3_total_unknown_bits sampleAttrTable sampleTypeTable sampleFcallTable
    0x2 0x1 0x100 (by decide) (by decide) (by decide)).1

/-- C4: a zero mask decodes to the empty vector and the empty string, and
more generally a mask with no set bit legal for the context decodes to the
empty vector and the empty string, not an error. -/
theorem C4_decode_zero (t : List AttrRow) (c m : Nat)
    (h : ∀ e ∈ t, e.ctx &&& c ≠ 0 → e.bit &&& m = 0) :
    attrs_to_vec t c 0 = [] ∧ attrs_to_string t c 0 = ""
  ∧ attrs_to_vec t c m = [] ∧ attrs_to_string t c m = "" := by
  have hz : attrs_to_vec t c 0 = [] :=
    attrs_to_vec_eq_nil t c 0 fun e _ _ => Nat.and_zero e.bit
  have hm : attrs_to_vec t c m = [] := attrs_to_vec_eq_nil t c m h
  exact ⟨hz, by simp [attrs_to_string, hz, join_space],
    hm, by simp [attrs_to_string, hm, join_space]⟩

/-- Witness for C4 at a concrete table: context TraitImport has no legal
row in the sample table, so even an all-ones mask decodes to nothing. -/
theorem C4_decode_zero_witness :
    attrs_to_vec sampleAttrTable 0x8 0 = []
  ∧ attrs_to_string sampleAttrTable 0x8 0 = ""
  ∧ attrs_to_vec sampleAttrTable 0x8 0xFF = []
  ∧ attrs_to_string sampleAttrTable 0x8 0xFF = "" :=
  C4_decode_zero sampleAttrTable 0x8 0xFF (by decide)

/-- C5: the decoded names appear in the fixed order of the table's rows:
the result is always a sublist of the table's names in declaration order,
so the relative order of any two produced names is their table order,
independent of bit values and of spelling. -/
theorem C5_table_order (t : List AttrRow) (c m : Nat) :
    List.Sublist (attrs_to_vec t c m) (t.map fun e => e.name) := by
  unfold attrs_to_vec
  exact (List.filter_sublist t).map fun e => e.name

/-- C6: a bit legal only for the Prop context decodes to its name under
context Prop and to nothing under context Func. -/
theorem C6_context_sensitivity (t : List AttrRow) (m : Nat) (e : AttrRow)
    (he : e ∈ t) (hset : e.bit &&& m ≠ 0)
    (hprop : e.ctx &&& AttrContext.Prop.val ≠ 0)
    (honly : ∀ e2 ∈ t, e2.name = e.name →
      e2.ctx &&& AttrContext.Func.val = 0) :
    e.name ∈ attrs_to_vec t AttrContext.Prop.val m
  ∧ e.name ∉ attrs_to_vec t AttrContext.Func.val m := by
  constructor
  · exact (mem_attrs_to_vec t AttrContext.Prop.val m e.name).mpr
      ⟨e, he, hprop, hset, rfl⟩
  · intro hmem
    rcases (mem_attrs_to_vec t AttrContext.Func.val m e.name).mp hmem with
      ⟨e2, he2, hc2, _, hn2⟩
    exact hc2 (honly e2 he2 hn2)

/-- Witness for C6: the sample row for bit 0x2 is legal only for Prop. -/
theorem C6_context_sensitivity_witness :
    "readonly" ∈ attrs_to_vec sampleAttrTable AttrContext.Prop.val 0x2
  ∧ "readonly" ∉ attrs_to_vec sampleAttrTable AttrContext.Func.val 0x2 :=
  C6_context_sensitivity sampleAttrTable 0x2 ⟨0x2, 0x4, "readonly"⟩
    (by decide) (by decide) (by decide) (by decide)

/-- C7: the output of `type_flags_to_string` depends only on the
type-constraint table and its flags argument, the output of
`fcall_flags_to_string` depends only on the fcall-args table and its flags
argument (neither takes any context), and `type_flags_to_string` considers
every row of its table: every set bit of a row contributes its name. -/
theorem C7_independence (g1 g2 : DecoderTables) (m : Nat) :
    (g1.typeTable = g2.typeTable →
      (type_flags_to_string_call g1 m).1 = (type_flags_to_string_call g2 m).1)
  ∧ (g1.fcallTable = g2.fcallTable →
      (fcall_flags_to_string_call g1 m).1 = (fcall_flags_to_string_call g2 m).1)
  ∧ (∀ e ∈ g1.typeTable, e.bit &&& m ≠ 0 →
      e.name ∈ flags_to_vec g1.typeTable m) := by
  refine ⟨fun h => ?_, fun h => ?_, fun e he hb => ?_⟩
  · simp only [type_flags_to_string_call]
    rw [h]
  · simp only [fcall_flags_to_string_call]
    rw [h]
  · simp only [flags_to_vec, List.mem_map]
    exact ⟨e, List.mem_filter.mpr ⟨he, by simpa [bne_iff_ne] using hb⟩, rfl⟩

/-- Witness for C7: two table bundles that differ in the attribute table
and the fcall table but agree on the type table give the same
type-constraint output. -/
theorem C7_independence_witness :
    (type_flags_to_string_call
      ⟨sampleAttrTable, sampleTypeTable, sampleFcallTable⟩ 0x3).1
  = (type_flags_to_string_call ⟨[], sampleTypeTable, []⟩ 0x3).1 :=
  (C7_independence ⟨sampleAttrTable, sampleTypeTable, sampleFcallTable⟩
    ⟨[], sampleTypeTable, []⟩ 0x3).1 rfl

/-- C8: every `AttrContext` enumerator value is a power of two, distinct
enumerators have bitwise-disjoint values, and the value determines the
enumerator, so contexts combine by bitwise or without ambiguity. -/
theorem C8_attr_context_bits :
    (∀ a : AttrContext, ∃ k : Nat, AttrContext.val a = 2 ^ k)
  ∧ (∀ a b : AttrContext, a ≠ b →
      AttrContext.val a &&& AttrContext.val b = 0)
  ∧ (∀ a b : AttrContext, AttrContext.val a = AttrContext.val b → a = b) := by
  refine ⟨fun a => ?_, by decide, by decide⟩
  exact match a with
    | AttrContext.Class => ⟨0, rfl⟩
    | AttrContext.Func => ⟨1, rfl⟩
    | AttrContext.Prop => ⟨2, rfl⟩
    | AttrContext.TraitImport => ⟨3, rfl⟩
    | AttrContext.Alias => ⟨4, rfl⟩
    | AttrContext.Parameter => ⟨5, rfl⟩
    | AttrContext.Constant => ⟨6, rfl⟩

/-- Witness for C8 at two concrete distinct enumerators. -/
theorem C8_attr_context_bits_witness :
    AttrContext.val AttrContext.Class &&& AttrContext.val AttrContext.Func = 0 :=
  C8_attr_context_bits.2.1 AttrContext.Class AttrContext.Func (by decide)

/-- C9: each of the four operations, viewed as a transformer of the global
tables, leaves the tables exactly as it found them, and a call made after
another call returns the same result as the first. -/
theorem C9_calls_preserve_tables (g : DecoderTables) (c m : Nat) :
    (attrs_to_vec_call g c m).2 = g
  ∧ (attrs_to_string_call g c m).2 = g
  ∧ (type_flags_to_string_call g m).2 = g
  ∧ (fcall_flags_to_string_call g m).2 = g
  ∧ (attrs_to_vec_call (attrs_to_string_call g c m).2 c m).1
      = (attrs_to_vec_call g c m).1 :=
  ⟨rfl, rfl, rfl, rfl, rfl⟩

/-- C10: enlarging the mask only adds names: the vector decoded from a mask
is a sublist, in the same relative order, of the vector decoded from the
mask with any further bits set. -/
theorem C10_mask_monotone (t : List AttrRow) (c m mp : Nat) :
    List.Sublist (attrs_to_vec t c m) (attrs_to_vec t c (m ||| mp)) := by
  unfold attrs_to_vec
  refine List.Sublist.map _ ?_
  refine List.monotone_filter_right t fun e hp => ?_
  simp only [Bool.and_eq_true, bne_iff_ne, ne_eq] at hp ⊢
  refine ⟨hp.1, fun hc => hp.2 ?_⟩
  rw [Nat.and_or_distrib_left] at hc
  exact or_eq_zero_left hc

end AsBase
